import Mathlib

/-!
Verification development for the code-tracing core of the
cretz/temporal-debug-go repository.

The embedding below is a shallow Lean model of the tracer package:

* the Result / Event data model (src/tracer/result.go),
* Config validation (tracer.New, src/unnamed/part_005),
* the file-line breakpoint locator (trace.addFileLineBreakpoint,
  src/tracer/trace.go),
* the three observation handlers (onProcessEvent, onReplayCommands,
  populateCoroutineName, src/tracer/trace.go),
* the stepping decision loop (trace.run, src/tracer/trace.go), modelled
  as a pure transition function driven by a script of debugger stop
  states, recording the stepping commands it issues.

Go machine integers are modelled as Nat/Int with explicit range checks
or wrap-around where the Go code performs conversions; Go strings are
modelled at the character level (the bytes relevant to the algorithms,
such as the dot, parentheses, newline and carriage-return characters,
are all single-byte, so character positions agree with byte positions
at every split the code performs).
-/

namespace TemporalDebugGo

/-! ## String helpers mirroring the Go strings package functions used -/

/-- Go strings.HasPrefix: does s start with p? -/
def startsWith (s p : String) : Bool :=
  p.data.isPrefixOf s.data

/-- All positions i (0 ≤ i ≤ hay.length) at which needle occurs in hay.
Used to model Go strings.Index / strings.LastIndex. -/
def occList (hay needle : List Char) : List Nat :=
  (List.range (hay.length + 1)).filter (fun i => needle.isPrefixOf (hay.drop i))

/-- Go strings.Index: first occurrence position of needle in hay, if any. -/
def strIndex (hay needle : List Char) : Option Nat :=
  (occList hay needle).head?

/-- Go strings.LastIndex: last occurrence position of needle in hay, if any. -/
def strLastIndex (hay needle : List Char) : Option Nat :=
  (occList hay needle).getLast?

/-- Go strings.ReplaceAll(s, crlf, lf): normalize line endings. -/
def normCRLF : List Char → List Char
  | [] => []
  | '\r' :: '\n' :: rest => '\n' :: normCRLF rest
  | c :: rest => c :: normCRLF rest

/-- Decimal digit accumulation for strconv parsing. -/
def digitsValAux : List Char → Nat → Option Nat
  | [], acc => some acc
  | c :: rest, acc =>
    if c.isDigit then digitsValAux rest (10 * acc + (c.toNat - 48)) else none

/-- Value of a nonempty all-digit string, none otherwise. -/
def digitsVal (l : List Char) : Option Nat :=
  if l.isEmpty then none else digitsValAux l 0

/-- Go strconv.ParseInt(s, 10, 64) (also strconv.Atoi on 64-bit platforms):
optional sign, decimal digits, 64-bit signed range check; none on error. -/
def goParseInt64 (l : List Char) : Option Int :=
  match l with
  | '+' :: rest =>
    (digitsVal rest).bind (fun n => if (n : Int) ≤ 2 ^ 63 - 1 then some (n : Int) else none)
  | '-' :: rest =>
    (digitsVal rest).bind (fun n => if (n : Int) ≤ 2 ^ 63 then some (-(n : Int)) else none)
  | _ =>
    (digitsVal l).bind (fun n => if (n : Int) ≤ 2 ^ 63 - 1 then some (n : Int) else none)

/-- Go conversion int → int32 (two's-complement wrap), used when the
handlers convert parsed ints to the int32-backed enum types. -/
def toInt32 (i : Int) : Int :=
  (i + 2 ^ 31) % 2 ^ 32 - 2 ^ 31

/-- tracer.intInTrailingParens (src/tracer/trace.go): extract the integer
between the first opening parenthesis and a closing parenthesis that must
end the string, e.g. "EventTypeWorkflowTaskStarted (3)". -/
def intInTrailingParens (s : String) : Except String Int :=
  match strIndex s.data ['('] with
  | none => .error "expected int in parens at the end"
  | some b =>
    if s.data.getLast? ≠ some ')' then .error "expected int in parens at the end"
    else
      match goParseInt64 ((s.data.drop (b + 1)).dropLast) with
      | none => .error "failed converting to int"
      | some i => .ok i

/-! ## Result data model (src/tracer/result.go) -/

/-- tracer.EventServer: an external history event observed at dispatch. -/
structure EventServer where
  id : Int
  type : Int
deriving DecidableEq, Repr

/-- tracer.EventClient: a batch of outbound commands. -/
structure EventClient where
  commands : List Int
deriving DecidableEq, Repr

/-- tracer.EventCode: one traced source-line step. -/
structure EventCode where
  package : String
  file : String
  line : Nat
  coroutine : String
deriving DecidableEq, Repr

/-- tracer.Event: tagged union; only one of the three fields is present. -/
structure Event where
  server : Option EventServer := none
  client : Option EventClient := none
  code : Option EventCode := none
deriving DecidableEq, Repr

/-- tracer.Result: the ordered event list produced by one trace run. -/
structure Result where
  events : List Event
deriving DecidableEq, Repr

/-! ## Enum text marshalling (src/tracer/result.go)

EventServerType and EventClientCommandType wrap the int32 protobuf
enumerations enums.EventType and enums.CommandType of go.temporal.io/api.
The generated name/value tables themselves are external library data, so
they are parameters of the model; the repository's marshalling code on
top of them is embedded below. -/

/-- A protobuf-generated enum table: value→name and name→value lists. -/
structure EnumTable where
  names : List (Int × String)
  values : List (String × Int)

/-- Generated map lookup EventType_name[v] (none when the value is unnamed). -/
def enumName (T : EnumTable) (v : Int) : Option String :=
  (T.names.find? (fun p => p.1 == v)).map (fun p => p.2)

/-- Go map lookup EventType_value[s]: zero value when the name is absent. -/
def enumValueLookup (T : EnumTable) (s : String) : Int :=
  ((T.values.find? (fun p => p.1 == s)).map (fun p => p.2)).getD 0

/-- Enum String(): the table name, or the decimal value when unnamed
(gogo proto.EnumName fallback). -/
def enumString (T : EnumTable) (v : Int) : String :=
  match enumName T v with
  | some s => s
  | none => toString v

/-- EventServerType.MarshalText: the String() form, never an error. -/
def eventServerTypeMarshalText (T : EnumTable) (v : Int) : String :=
  enumString T v

/-- EventServerType.UnmarshalText: table lookup with zero default; the Go
method always returns a nil error, modelled by the none second component. -/
def eventServerTypeUnmarshalText (T : EnumTable) (s : String) : Int × Option String :=
  (enumValueLookup T s, none)

/-- EventClientCommandType.MarshalText (the Go code is a second copy of
the same pattern over enums.CommandType). -/
def eventClientCommandTypeMarshalText (T : EnumTable) (v : Int) : String :=
  enumString T v

/-- EventClientCommandType.UnmarshalText: always error-free table lookup. -/
def eventClientCommandTypeUnmarshalText (T : EnumTable) (s : String) : Int × Option String :=
  (enumValueLookup T s, none)

/-! ## Config validation (src/unnamed/part_005: tracer.Config, tracer.New) -/

/-- workflow.Execution: identity of a past run on the server. -/
structure Execution where
  id : String
  runId : String
deriving DecidableEq, Repr

/-- tracer.Config (the fields tracer.New reads or stores; the logger is
defaulted by New and carries no validation content). -/
structure Config where
  clientHostPort : String := ""
  clientNamespace : String := ""
  workflowFuncs : List String := []
  execution : Option Execution := none
  historyFile : String := ""
  rootDir : String := ""
  retainTempDir : Bool := false
  excludeFuncs : List (String → Bool) := []
  excludeFiles : List (String → Bool) := []
  includeTemporalInternal : Bool := false

/-- tracer.Tracer: validated config plus the split entry-point descriptor. -/
structure Tracer where
  config : Config
  fnPkg : String
  fn : String

/-- tracer.New: pure validation — it creates no process, directory or any
other side effect (those happen only later, in Tracer.Trace). -/
def New (config : Config) : Except String Tracer :=
  if config.execution = none ∧ config.historyFile = "" then
    .error "must have existing execution or history file"
  else if config.execution ≠ none ∧ config.historyFile ≠ "" then
    .error "cannot have both execution and history file"
  else if config.workflowFuncs.length ≠ 1 then
    .error "single workflow function required"
  else
    let wf := config.workflowFuncs.headD ""
    match strLastIndex wf.data ['.'] with
    | none => .error "workflow function missing dot"
    | some lastDot =>
      .ok ⟨config, ⟨wf.data.take lastDot⟩, ⟨wf.data.drop (lastDot + 1)⟩⟩

/-! ## Source locator (trace.addFileLineBreakpoint, src/tracer/trace.go) -/

/-- The file-selection loop of addFileLineBreakpoint: scans the debug
session's source list, using the empty string as the not-yet-found
sentinel, and fails as soon as a second match appears. -/
def findFileLoop (matchs : String → Bool) : List String → String → Except String String
  | [], acc => .ok acc
  | f :: rest, acc =>
    if matchs f then
      if acc ≠ "" then .error ("both " ++ acc ++ " and " ++ f ++ " match")
      else findFileLoop matchs rest f
    else findFileLoop matchs rest acc

/-- A breakpoint placement produced by the locator. -/
structure FileLine where
  file : String
  line : Nat
deriving DecidableEq, Repr

/-- trace.addFileLineBreakpoint, the pure locator core: the compiled file
regular expression is abstracted as the predicate matchs (its MatchString),
and the file system as readFile. Line-ending normalization, the
unique-file requirement, the unique-occurrence requirement and the line
computation follow the Go code. -/
def addFileLineBreakpoint (sources : List String) (matchs : String → Bool)
    (readFile : String → String) (codeToMatch : String) : Except String FileLine :=
  match findFileLoop matchs sources "" with
  | .error e => .error e
  | .ok file =>
    if file = "" then .error "unable to find file matching"
    else
      let source := normCRLF (readFile file).data
      match strIndex source codeToMatch.data with
      | none => .error ("cannot find matching code on " ++ file)
      | some codeIndex =>
        if strLastIndex source codeToMatch.data ≠ some codeIndex then
          .error ("code found twice in " ++ file)
        else
          .ok ⟨file, (source.take (codeIndex + codeToMatch.data.length)).count '\n' + 1⟩

/-! ## Debugger variable trees (delve api.Variable, as consumed here) -/

/-- The slice of delve's api.Variable that the handlers inspect. -/
inductive Variable where
  | mk (name : String) (value : String) (children : List Variable)
deriving Repr

/-- Variable.Name. -/
def Variable.name : Variable → String
  | .mk n _ _ => n

/-- Variable.Value. -/
def Variable.value : Variable → String
  | .mk _ v _ => v

/-- Variable.Children. -/
def Variable.children : Variable → List Variable
  | .mk _ _ c => c

/-- Children[0] as consumed by the handlers (Go would panic on an empty
slice; scripts model the defined executions). -/
def headVar (l : List Variable) : Variable :=
  l.headD (.mk "" "" [])

/-! ## Observation handlers (src/tracer/trace.go)

Each handler is modelled as a pure function of the variable trees that
delve reports at the stop (FunctionArguments / LocalVariables); a
debugger-side failure to load variables is a backend error outside these
functions. -/

/-- Inner loop of trace.onProcessEvent over the children of the event
argument's pointed-to struct: parse EventId and EventType fields. -/
def processEventChildren : List Variable → EventServer → Except String EventServer
  | [], ev => .ok ev
  | .mk n v _ :: rest, ev =>
    if n = "EventId" then
      match goParseInt64 v.data with
      | none => .error ("invalid event ID " ++ v)
      | some i => processEventChildren rest { ev with id := i }
    else if n = "EventType" then
      match intInTrailingParens v with
      | .error e => .error ("invalid event type " ++ v ++ ": " ++ e)
      | .ok i => processEventChildren rest { ev with type := toInt32 i }
    else processEventChildren rest ev

/-- Outer loop of trace.onProcessEvent over the function arguments. -/
def processEventArgs : List Variable → EventServer → Except String EventServer
  | [], ev => .ok ev
  | .mk n _ children :: rest, ev =>
    if n = "event" then
      match processEventChildren (headVar children).children ev with
      | .error e => .error e
      | .ok ev2 => processEventArgs rest ev2
    else processEventArgs rest ev

/-- trace.onProcessEvent: extract the event from the arguments and append
one server Event; the event starts zero-valued and keeps any field whose
child is absent. -/
def onProcessEvent (args : List Variable) : Except String Event :=
  match processEventArgs args ⟨0, 0⟩ with
  | .error e => .error e
  | .ok ev => .ok { server := some ev }

/-- Inner loop of trace.onReplayCommands over the eventCommands slice
elements: each command's commandType renders as "Kind (n)". -/
def replayCommandChildren : List Variable → List Int → Except String (List Int)
  | [], acc => .ok acc
  | c :: rest, acc =>
    match intInTrailingParens (headVar (headVar c.children).children).value with
    | .error _ => .error "invalid command type"
    | .ok i => replayCommandChildren rest (acc ++ [toInt32 i])

/-- Outer loop of trace.onReplayCommands over the local variables. -/
def replayCommandArgs : List Variable → List Int → Except String (List Int)
  | [], acc => .ok acc
  | .mk n _ children :: rest, acc =>
    if n = "eventCommands" then
      match replayCommandChildren children acc with
      | .error e => .error e
      | .ok acc2 => replayCommandArgs rest acc2
    else replayCommandArgs rest acc

/-- trace.onReplayCommands: append a client Event only when the extracted
command list is non-empty. -/
def onReplayCommands (locals : List Variable) : Except String (Option Event) :=
  match replayCommandArgs locals [] with
  | .error e => .error e
  | .ok cmds => .ok (if cmds = [] then none else some { client := some ⟨cmds⟩ })

/-- The name recorded by trace.populateCoroutineName: the "name" field of
the first "crt" argument's pointed-to struct that has one. -/
def crtNameChildren : List Variable → Option String
  | [] => none
  | .mk n v _ :: rest => if n = "name" then some v else crtNameChildren rest

/-- Scan of the function arguments for a crt argument carrying a name. -/
def crtName : List Variable → Option String
  | [] => none
  | .mk n _ children :: rest =>
    if n = "crt" then
      match crtNameChildren (headVar children).children with
      | some v => some v
      | none => crtName rest
    else crtName rest

/-- Goroutine-id → declared-name table (trace.coroutineNames); a Go map
modelled as an association list where the most recent entry wins. -/
def lookupName (names : List (Nat × String)) (gid : Nat) : String :=
  match names.find? (fun p => p.1 == gid) with
  | some p => p.2
  | none => ""

/-- Map store coroutineNames[gid] = v. -/
def insertName (names : List (Nat × String)) (gid : Nat) (v : String) :
    List (Nat × String) :=
  (gid, v) :: names

/-- trace.populateCoroutineName: record the declared coroutine name for
the current goroutine; silently leaves the table unchanged when no
crt/name shape is found (the Go function returns nil in that case). -/
def populateCoroutineName (args : List Variable) (gid : Nat)
    (names : List (Nat × String)) : List (Nat × String) :=
  match crtName args with
  | some v => insertName names gid v
  | none => names

/-! ## The stepping decision loop (trace.run, src/tracer/trace.go)

The loop is a synchronous request/response protocol against the
debugger: issue a command, receive a stop state, classify, repeat. It is
modelled as a transition function over a script — the list of stop
states the debugger replies with, in order. A command issued past the
end of the script is a backend error, mirroring a failed delve command. -/

/-- One debugger stop state (delve api.DebuggerState plus the variable
trees and current package the handlers would load at that stop). -/
structure Stop where
  exited : Bool := false
  exitStatus : Int := 0
  nextInProgress : Bool := false
  breakpointId : Option Nat := none
  file : String := ""
  line : Nat := 0
  funcName : String := ""
  goroutineId : Nat := 0
  functionArgs : List Variable := []
  localVars : List Variable := []
  currentPackage : String := ""

/-- What kind of handler a registered breakpoint carries. -/
inductive HandlerKind where
  | noHandler
  | processEvent
  | replayCommands
  | coroutineName
deriving DecidableEq, Repr

/-- The breakpoint registry set up by newTrace (src/tracer/trace.go), with
delve assigning ids in creation order: workflow entry, event dispatch,
command emission, coroutine spawn, end of initial yield. -/
def traceBreakpoints : Nat → Option HandlerKind := fun id =>
  if id = 1 then some .noHandler
  else if id = 2 then some .processEvent
  else if id = 3 then some .replayCommands
  else if id = 4 then some .coroutineName
  else if id = 5 then some .noHandler
  else none

/-- A stepping command issued to the debugger. -/
inductive Action where
  | cont
  | step
  | stepOut
  | cancelNext
deriving DecidableEq, Repr

/-- How a run ends abnormally. -/
inductive RunErr where
  | handlerFailed (msg : String)
  | exitStatus (code : Int)
  | backend
deriving DecidableEq, Repr

/-- Result of running the hit breakpoint's handler at a stop: the updated
name table and the events the handler appended. -/
structure HandlerResult where
  names : List (Nat × String)
  delta : List Event

/-- The breakpoint-capture step at the top of the loop body: look the hit
breakpoint up in the registry and run its handler, if any. -/
def runStopHandler (bps : Nat → Option HandlerKind) (st : Stop)
    (names : List (Nat × String)) : Except String HandlerResult :=
  match st.breakpointId with
  | none => .ok ⟨names, []⟩
  | some id =>
    match bps id with
    | none => .ok ⟨names, []⟩
    | some .noHandler => .ok ⟨names, []⟩
    | some .processEvent => (onProcessEvent st.functionArgs).map (fun e => ⟨names, [e]⟩)
    | some .replayCommands => (onReplayCommands st.localVars).map (fun oe => ⟨names, oe.toList⟩)
    | some .coroutineName =>
      .ok ⟨populateCoroutineName st.functionArgs st.goroutineId names, []⟩

/-- The exclusion classifier hardcoded in trace.run (src/tracer/trace.go):
file under GOROOT/src, Temporal SDK internals, go.uber.org/atomic, the
runtime package, or the synthesized harness entry main.main. -/
def goStdOrTemporal (goRootSrc : String) (st : Stop) : Bool :=
  startsWith st.file goRootSrc
  || startsWith st.funcName "go.temporal.io/sdk/"
  || startsWith st.funcName "go.uber.org/atomic."
  || startsWith st.funcName "runtime."
  || st.funcName == "main.main"

/-- Modelled from the spec: the exclusion classifier of the final tracer
revision, whose stepping-loop implementation consuming
Config.ExcludeFuncs / Config.ExcludeFiles is not under src (part_005
declares the fields — "These are stepped out of if reached in any way" —
with ImpliedExcludeFuncs / ImpliedExcludeFiles automatically assumed;
those implied regular expressions are the anchored forms of exactly the
prefix checks of goStdOrTemporal). Caller-supplied regular expressions
over function names and file paths are abstracted as predicates. -/
def excludedLocation (goRootSrc : String)
    (excludeFuncs excludeFiles : List (String → Bool)) (st : Stop) : Bool :=
  goStdOrTemporal goRootSrc st
  || excludeFuncs.any (fun p => p st.funcName)
  || excludeFiles.any (fun p => p st.file)

/-- The outcome of one iteration of the loop body of trace.run. -/
structure IterResult where
  names : List (Nat × String)
  events : List Event
  codeLog : List (Nat × EventCode)
  actions : List Action
  next : Option Action
  err : Option RunErr

/-- One iteration of the loop body of trace.run at stop st: run the hit
breakpoint's handler, cancel any in-flight next, then either step out of
an excluded location (plain step when stopped in runtime.goexit, out of
which there is nothing to step) or record a code step and single-step.
next is the command whose response becomes the new stop state (none ends
the run); codeLog is ghost instrumentation recording, for each code
event appended, the goroutine id of the stop that produced it — it is
used only to state per-coroutine attribution properties. The exclusion
classifier is a parameter so that both the hardcoded goStdOrTemporal and
the spec-modelled excludedLocation instantiate the same loop. -/
def iterate (bps : Nat → Option HandlerKind) (excl : Stop → Bool) (st : Stop)
    (names : List (Nat × String)) (events : List Event) : IterResult :=
  if st.exited then
    { names := names, events := events, codeLog := [], actions := [], next := none,
      err := if st.exitStatus ≠ 0 then some (.exitStatus st.exitStatus) else none }
  else
    match runStopHandler bps st names with
    | .error e =>
      { names := names, events := events, codeLog := [], actions := [], next := none,
        err := some (.handlerFailed e) }
    | .ok hr =>
      let cancels : List Action := if st.nextInProgress then [.cancelNext] else []
      if excl st then
        let cmd : Action := if startsWith st.funcName "runtime.goexit" then .step else .stepOut
        { names := hr.names, events := events ++ hr.delta, codeLog := [],
          actions := cancels ++ [cmd], next := some cmd, err := none }
      else
        let ec : EventCode :=
          ⟨st.currentPackage, st.file, st.line, lookupName hr.names st.goroutineId⟩
        let cd : List Event × List (Nat × EventCode) :=
          if st.file ≠ "" ∧ excl st = false then ([{ code := some ec }], [(st.goroutineId, ec)])
          else ([], [])
        { names := hr.names, events := (events ++ hr.delta) ++ cd.1, codeLog := cd.2,
          actions := cancels ++ [.step], next := some .step, err := none }

/-- The outcome of a whole run: accumulated events (returned to the
caller even on error, as Tracer.Trace returns &trace.result alongside
the run error), final name table, ghost code log, issued commands, and
the run error if any. -/
structure RunOutcome where
  events : List Event
  names : List (Nat × String)
  codeLog : List (Nat × EventCode)
  actions : List Action
  err : Option RunErr
deriving DecidableEq, Repr

/-- The stepping loop of trace.run, driven by the remaining script: when
the iteration ends the run (next = none) the accumulated outcome is
returned; otherwise the issued command's response is the next script
entry (an exhausted script models a failing debugger command). -/
def runLoop (bps : Nat → Option HandlerKind) (excl : Stop → Bool) :
    List Stop → Stop → List (Nat × String) → List Event →
    List (Nat × EventCode) → List Action → RunOutcome
  | [], st, names, events, codeLog, acts =>
    let r := iterate bps excl st names events
    match r.next with
    | none => ⟨r.events, r.names, codeLog ++ r.codeLog, acts ++ r.actions, r.err⟩
    | some _ => ⟨r.events, r.names, codeLog ++ r.codeLog, acts ++ r.actions, some .backend⟩
  | st2 :: rest, st, names, events, codeLog, acts =>
    let r := iterate bps excl st names events
    match r.next with
    | none => ⟨r.events, r.names, codeLog ++ r.codeLog, acts ++ r.actions, r.err⟩
    | some _ =>
      runLoop bps excl rest st2 r.names r.events (codeLog ++ r.codeLog) (acts ++ r.actions)

/-- trace.run: issue the initial continue (an empty script models its
failure) and enter the stepping loop with empty accumulators. -/
def runTrace (bps : Nat → Option HandlerKind) (excl : Stop → Bool)
    (script : List Stop) : RunOutcome :=
  match script with
  | [] => ⟨[], [], [], [.cont], some .backend⟩
  | st :: rest => runLoop bps excl rest st [] [] [] [.cont]

/-- An event is a well-formed command batch: either not a client event,
or a client event with a non-empty command list. -/
def clientOk (e : Event) : Bool :=
  match e.client with
  | none => true
  | some c => !c.commands.isEmpty

/-- The coroutine name that processing stop s would record for goroutine
U: only the coroutine-naming breakpoint's handler records names, and only
for the goroutine current at the stop. -/
def recordedName (bps : Nat → Option HandlerKind) (s : Stop) (U : Nat) : Option String :=
  match s.breakpointId with
  | none => none
  | some id =>
    match bps id with
    | some .coroutineName => if s.goroutineId = U then crtName s.functionArgs else none
    | _ => none

/-! ## Shared helper lemmas -/

/-- When an iteration ends the run, the loop returns the accumulated
outcome of that iteration, whatever script remains. -/
lemma runLoop_stop {bps : Nat → Option HandlerKind} {excl : Stop → Bool}
    (script : List Stop) {st : Stop} {names : List (Nat × String)}
    {events : List Event} (codeLog : List (Nat × EventCode)) (acts : List Action)
    (h : (iterate bps excl st names events).next = none) :
    runLoop bps excl script st names events codeLog acts =
      ⟨(iterate bps excl st names events).events,
       (iterate bps excl st names events).names,
       codeLog ++ (iterate bps excl st names events).codeLog,
       acts ++ (iterate bps excl st names events).actions,
       (iterate bps excl st names events).err⟩ := by
  cases script <;> (rw [runLoop]; simp only [h])

/-- When an iteration issues a command and the script is exhausted, the
run ends with a backend error. -/
lemma runLoop_exhausted {bps : Nat → Option HandlerKind} {excl : Stop → Bool}
    {st : Stop} {names : List (Nat × String)} {events : List Event}
    (codeLog : List (Nat × EventCode)) (acts : List Action) {c : Action}
    (h : (iterate bps excl st names events).next = some c) :
    runLoop bps excl [] st names events codeLog acts =
      ⟨(iterate bps excl st names events).events,
       (iterate bps excl st names events).names,
       codeLog ++ (iterate bps excl st names events).codeLog,
       acts ++ (iterate bps excl st names events).actions,
       some .backend⟩ := by
  rw [runLoop]; simp only [h]

/-- When an iteration issues a command, the loop continues at the next
scripted stop with the iteration's accumulators. -/
lemma runLoop_cont {bps : Nat → Option HandlerKind} {excl : Stop → Bool}
    {st st2 : Stop} {rest : List Stop} {names : List (Nat × String)}
    {events : List Event} (codeLog : List (Nat × EventCode)) (acts : List Action)
    {c : Action} (h : (iterate bps excl st names events).next = some c) :
    runLoop bps excl (st2 :: rest) st names events codeLog acts =
      runLoop bps excl rest st2 (iterate bps excl st names events).names
        (iterate bps excl st names events).events
        (codeLog ++ (iterate bps excl st names events).codeLog)
        (acts ++ (iterate bps excl st names events).actions) := by
  rw [runLoop]; simp only [h]

/-- A position in occList is a position where the needle occurs. -/
lemma occList_mem {hay needle : List Char} {i : Nat} :
    i ∈ occList hay needle ↔ i < hay.length + 1 ∧ needle <+: hay.drop i := by
  simp [occList, List.mem_filter, List.mem_range, List.isPrefixOf_iff_prefix]

/-- occList has no duplicate positions. -/
lemma occList_nodup (hay needle : List Char) : (occList hay needle).Nodup :=
  List.Nodup.filter _ (List.nodup_range _)

/-- In a duplicate-free list, equal head and last force a singleton. -/
lemma nodup_head_getLast {l : List Nat} (hn : l.Nodup) (i : Nat)
    (h1 : l.head? = some i) (h2 : l.getLast? = some i) : l = [i] := by
  cases l with
  | nil => simp at h1
  | cons a t =>
    cases t with
    | nil =>
      simp only [List.head?_cons, Option.some.injEq] at h1
      rw [h1]
    | cons b u =>
      exfalso
      simp only [List.head?_cons, Option.some.injEq] at h1
      have hne : b :: u ≠ [] := by simp
      have hlast : (b :: u).getLast hne ∈ b :: u := List.getLast_mem hne
      have h2' : (a :: b :: u).getLast? = (b :: u).getLast? := by
        simp [List.getLast?]
      rw [h2', List.getLast?_eq_getLast _ hne] at h2
      have hil : i = (b :: u).getLast hne := by
        exact Option.some.inj h2.symm
      have : i ∈ b :: u := hil ▸ hlast
      have hni : a ∉ b :: u := (List.nodup_cons.mp hn).1
      exact hni (h1 ▸ this)

/-- Singleton occurrence list determines both strIndex and strLastIndex. -/
lemma strIndex_strLastIndex_of_singleton {hay needle : List Char} {i : Nat}
    (h : occList hay needle = [i]) :
    strIndex hay needle = some i ∧ strLastIndex hay needle = some i := by
  constructor
  · simp [strIndex, h]
  · simp [strLastIndex, h]

/-- With at least two occurrences, first and last positions differ. -/
lemma strIndex_ne_strLastIndex {hay needle : List Char}
    (h : 2 ≤ (occList hay needle).length) :
    strIndex hay needle ≠ strLastIndex hay needle := by
  intro heq
  match hl : occList hay needle with
  | [] => rw [hl] at h; simp at h
  | [a] => rw [hl] at h; simp at h
  | a :: b :: u =>
    have hn := occList_nodup hay needle
    rw [hl] at hn
    rw [strIndex, strLastIndex, hl] at heq
    simp only [List.head?_cons] at heq
    have := nodup_head_getLast (l := a :: b :: u) hn a rfl heq.symm
    simp at this

/-- If a character is absent, the singleton needle never occurs. -/
lemma occList_single_eq_nil {s : List Char} {c : Char} (h : ∀ x ∈ s, x ≠ c) :
    occList s [c] = [] := by
  apply List.filter_eq_nil_iff.mpr
  intro i _
  simp only [Bool.not_eq_true]
  cases hd : s.drop i with
  | nil => rfl
  | cons x t =>
    have hx : x ∈ s := List.mem_of_mem_drop (by rw [hd]; exact List.mem_cons_self x t)
    rw [Bool.eq_false_iff]
    intro hpre
    obtain ⟨r, hr⟩ := List.isPrefixOf_iff_prefix.mp hpre
    have hcx : c = x := by
      have := hr
      simp only [List.singleton_append] at this
      exact (List.cons.inj this).1
    exact h x hx hcx.symm

/-! ## Claim C3: Config validation -/

/-- Claim C3: tracer.New rejects every Config that sets both or neither of
Execution and HistoryFile, and every Config whose single workflow-function
descriptor contains no dot; New itself is pure validation, so the error is
returned before any process, temporary directory or other side effect
(those are only performed later, by Tracer.Trace). -/
theorem New_rejects_invalid_configs :
    (∀ config : Config, config.execution = none → config.historyFile = "" →
      ∃ e, New config = .error e)
    ∧ (∀ (config : Config) (ex : Execution), config.execution = some ex →
      config.historyFile ≠ "" → ∃ e, New config = .error e)
    ∧ (∀ (config : Config) (s : String), config.workflowFuncs = [s] →
      (∀ c ∈ s.data, c ≠ '.') → ∃ e, New config = .error e) := by
  refine ⟨?_, ?_, ?_⟩
  · intro config h1 h2
    refine ⟨"must have existing execution or history file", ?_⟩
    rw [New, if_pos ⟨h1, h2⟩]
  · intro config ex h1 h2
    refine ⟨"cannot have both execution and history file", ?_⟩
    rw [New, if_neg (by simp [h1, h2]), if_pos (by simp [h1, h2])]
  · intro config s h1 h2
    by_cases hc1 : config.execution = none ∧ config.historyFile = ""
    · refine ⟨"must have existing execution or history file", ?_⟩
      rw [New, if_pos hc1]
    · by_cases hc2 : config.execution ≠ none ∧ config.historyFile ≠ ""
      · refine ⟨"cannot have both execution and history file", ?_⟩
        rw [New, if_neg hc1, if_pos hc2]
      · refine ⟨"workflow function missing dot", ?_⟩
        rw [New, if_neg hc1, if_neg hc2, if_neg (by simp [h1])]
        have hno : strLastIndex s.data ['.'] = none := by
          rw [strLastIndex, occList_single_eq_nil h2]
          rfl
        simp [h1, hno]

/-- Witness for C3: all three rejection behaviors at concrete configs. -/
theorem New_rejects_invalid_configs_witness :
    (∃ e, New { workflowFuncs := ["a.b"] } = .error e)
    ∧ (∃ e, New { workflowFuncs := ["a.b"], historyFile := "h.json", execution := some ⟨"wid", "rid"⟩ } = .error e)
    ∧ (∃ e, New { workflowFuncs := ["nodot"], historyFile := "h.json" } = .error e) :=
  ⟨New_rejects_invalid_configs.1 _ rfl rfl,
   New_rejects_invalid_configs.2.1 _ ⟨"wid", "rid"⟩ rfl (by decide),
   New_rejects_invalid_configs.2.2 _ "nodot" rfl (by decide)⟩

/-! ## Claim C5: handler behavior on unexpected field shapes -/

/-- Arguments containing no event argument leave the accumulator as is. -/
lemma processEventArgs_skip {args : List Variable} {ev : EventServer}
    (h : ∀ a ∈ args, a.name ≠ "event") : processEventArgs args ev = .ok ev := by
  induction args with
  | nil => rfl
  | cons a rest ih =>
    match a with
    | .mk n v children =>
      have hn : n ≠ "event" := h (.mk n v children) (List.mem_cons_self _ _)
      rw [processEventArgs, if_neg hn]
      exact ih (fun x hx => h x (List.mem_cons_of_mem _ hx))

/-- Arguments containing no crt argument yield no coroutine name. -/
lemma crtName_skip {args : List Variable} (h : ∀ a ∈ args, a.name ≠ "crt") :
    crtName args = none := by
  induction args with
  | nil => rfl
  | cons a rest ih =>
    match a with
    | .mk n v children =>
      have hn : n ≠ "crt" := h (.mk n v children) (List.mem_cons_self _ _)
      rw [crtName, if_neg hn]
      exact ih (fun x hx => h x (List.mem_cons_of_mem _ hx))

/-- Counterexample to claim C5 as stated: at a stop where the
event-dispatch handler finds no "event" argument at all, it does not
return a hard error — it succeeds and appends a zero-valued server
event. -/
theorem onProcessEvent_missing_event_no_error :
    onProcessEvent [] = .ok { server := some { id := 0, type := 0 } } := rfl

/-- Claim C5 (amended): the observation handlers hard-error only on
malformed field values (an EventType or command type without a trailing
parenthesized integer, a non-integer EventId); missing expected shapes
are tolerated without error: a missing event argument appends a
zero-valued server event, and a missing crt/name shape records no
coroutine name and succeeds. -/
theorem handler_extraction_errors :
    (∀ args : List Variable, (∀ a ∈ args, a.name ≠ "event") →
      onProcessEvent args = .ok { server := some { id := 0, type := 0 } })
    ∧ (∀ (args : List Variable) (gid : Nat) (names : List (Nat × String)),
      (∀ a ∈ args, a.name ≠ "crt") → populateCoroutineName args gid names = names)
    ∧ (∀ v e, intInTrailingParens v = .error e →
      ∃ msg, onProcessEvent [.mk "event" "" [.mk "" "" [.mk "EventType" v []]]] = .error msg)
    ∧ (∀ v e, intInTrailingParens v = .error e →
      ∃ msg, onReplayCommands [.mk "eventCommands" "" [.mk "" "" [.mk "" "" [.mk "" v []]]]]
        = .error msg) := by
  refine ⟨?_, ?_, ?_, ?_⟩
  · intro args h
    rw [onProcessEvent, processEventArgs_skip h]
  · intro args gid names h
    rw [populateCoroutineName, crtName_skip h]
  · intro v e h
    refine ⟨"invalid event type " ++ v ++ ": " ++ e, ?_⟩
    simp [onProcessEvent, processEventArgs, processEventChildren, headVar, Variable.children, h]
  · intro v e h
    refine ⟨"invalid command type", ?_⟩
    simp [onReplayCommands, replayCommandArgs, replayCommandChildren, headVar,
      Variable.children, Variable.value, h]

/-- Witness for C5 (amended): concrete instances of all four behaviors. -/
theorem handler_extraction_errors_witness :
    onProcessEvent [.mk "other" "" []] = .ok { server := some { id := 0, type := 0 } }
    ∧ populateCoroutineName [.mk "other" "" []] 7 [] = []
    ∧ (∃ msg, onProcessEvent [.mk "event" "" [.mk "" "" [.mk "EventType" "garbage" []]]]
        = .error msg)
    ∧ (∃ msg, onReplayCommands
        [.mk "eventCommands" "" [.mk "" "" [.mk "" "" [.mk "" "garbage" []]]]] = .error msg) :=
  ⟨handler_extraction_errors.1 _ (by intro a ha; simp at ha; rw [ha]; decide),
   handler_extraction_errors.2.1 _ 7 [] (by intro a ha; simp at ha; rw [ha]; decide),
   handler_extraction_errors.2.2.1 "garbage" "expected int in parens at the end" rfl,
   handler_extraction_errors.2.2.2 "garbage" "expected int in parens at the end" rfl⟩

/-! ## Claim C6: non-zero exit keeps the accumulated result -/

/-- Claim C6: when the stepping loop reaches an exited stop with non-zero
status, the run ends with an exit-status error and the outcome carries
exactly the accumulated events (nothing is discarded) — mirroring
Tracer.Trace, which returns &trace.result alongside the run error. -/
theorem nonzero_exit_keeps_partial_result (bps : Nat → Option HandlerKind)
    (excl : Stop → Bool) (script : List Stop) (st : Stop)
    (names : List (Nat × String)) (events : List Event)
    (codeLog : List (Nat × EventCode)) (acts : List Action)
    (h1 : st.exited = true) (h2 : st.exitStatus ≠ 0) :
    runLoop bps excl script st names events codeLog acts
      = ⟨events, names, codeLog, acts, some (.exitStatus st.exitStatus)⟩ := by
  have hit : iterate bps excl st names events
      = ⟨names, events, [], [], none, some (.exitStatus st.exitStatus)⟩ := by
    rw [iterate, if_pos h1, if_pos h2]
  rw [runLoop_stop script codeLog acts (by rw [hit])]
  rw [hit]
  simp

/-- Witness for C6: a run that accumulated one event exits with status 2;
the event and the error are both reported. -/
theorem nonzero_exit_keeps_partial_result_witness :
    runLoop traceBreakpoints (fun _ => false) []
        { exited := true, exitStatus := 2 } []
        [{ server := some { id := 1, type := 1 } }] [] [.cont]
      = ⟨[{ server := some { id := 1, type := 1 } }], [], [], [.cont],
          some (.exitStatus 2)⟩ :=
  nonzero_exit_keeps_partial_result _ _ _ _ _ _ _ _ rfl (by decide)

/-! ## Claim C1: NextInProgress handling -/

/-- Counterexample to claim C1 as stated: a stop with NextInProgress true
at the event-dispatch marker breakpoint — a breakpoint that is not of
the kind that resumes user-code stepping (in the earlier revision of the
loop it was registered with forStepping false). The claim requires the
engine to re-issue continue; the current loop instead cancels the
in-flight step and proceeds (the subsequent command is the step-out of
the excluded frame, and no further continue is ever issued). -/
theorem nextInProgress_observational_not_continued :
    (runTrace traceBreakpoints (goStdOrTemporal "/usr/local/go/src")
        [{ nextInProgress := true
           breakpointId := some 2
           file := "/go/pkg/mod/go.temporal.io/sdk/internal/internal_event_handlers.go"
           line := 800
           funcName := "go.temporal.io/sdk/internal.(*workflowExecutionEventHandlerImpl).ProcessEvent"
           goroutineId := 1 },
         { exited := true }]).actions
      = [Action.cont, Action.cancelNext, Action.stepOut]
    ∧ Action.cont ∉ ((runTrace traceBreakpoints (goStdOrTemporal "/usr/local/go/src")
        [{ nextInProgress := true
           breakpointId := some 2
           file := "/go/pkg/mod/go.temporal.io/sdk/internal/internal_event_handlers.go"
           line := 800
           funcName := "go.temporal.io/sdk/internal.(*workflowExecutionEventHandlerImpl).ProcessEvent"
           goroutineId := 1 },
         { exited := true }]).actions.drop 1) := by
  constructor
  · rfl
  · decide

/-- Claim C1 (amended): whenever the stepping loop observes a (non-exited)
stop with NextInProgress true and the stop's handler succeeds, it cancels
the in-flight step unconditionally — whatever breakpoint was hit,
including purely observational markers — and proceeds with normal
processing of the stop; it never re-issues continue in response to such a
stop. -/
theorem nextInProgress_always_cancelled (bps : Nat → Option HandlerKind)
    (excl : Stop → Bool) (st : Stop) (names : List (Nat × String)) (events : List Event)
    (h1 : st.exited = false) (h2 : st.nextInProgress = true)
    (hok : ∃ hr, runStopHandler bps st names = .ok hr) :
    (iterate bps excl st names events).actions.head? = some Action.cancelNext
    ∧ Action.cont ∉ (iterate bps excl st names events).actions := by
  obtain ⟨hr, hhr⟩ := hok
  by_cases he : excl st = true <;>
    by_cases hg : startsWith st.funcName "runtime.goexit" = true <;>
      simp [iterate, h1, h2, hhr, he, hg]

/-- Witness for C1 (amended): at a concrete NextInProgress stop the first
issued action is the cancel, and continue is never issued. -/
theorem nextInProgress_always_cancelled_witness :
    (iterate traceBreakpoints (goStdOrTemporal "/usr/local/go/src")
        { nextInProgress := true, breakpointId := some 1, funcName := "mypkg.MyWorkflow" }
        [] []).actions.head? = some Action.cancelNext
    ∧ Action.cont ∉ (iterate traceBreakpoints (goStdOrTemporal "/usr/local/go/src")
        { nextInProgress := true, breakpointId := some 1, funcName := "mypkg.MyWorkflow" }
        [] []).actions :=
  nextInProgress_always_cancelled _ _ _ _ _ rfl rfl ⟨⟨[], []⟩, rfl⟩

/-! ## Shape lemmas for handlers and the loop -/

/-- A successful event-dispatch handler call returns one server event. -/
lemma onProcessEvent_ok_shape {args : List Variable} {e : Event}
    (h : onProcessEvent args = .ok e) : ∃ ev, e = { server := some ev } := by
  rw [onProcessEvent] at h
  cases hpa : processEventArgs args ⟨0, 0⟩ with
  | error e2 => rw [hpa] at h; exact absurd h (by simp)
  | ok ev =>
    rw [hpa] at h
    exact ⟨ev, (Except.ok.inj h).symm⟩

/-- A successful command-emission handler call returns either nothing or
one client event with a non-empty command list. -/
lemma onReplayCommands_ok_shape {locals : List Variable} {oe : Option Event}
    (h : onReplayCommands locals = .ok oe) :
    oe = none ∨ ∃ cmds, cmds ≠ [] ∧ oe = some { client := some ⟨cmds⟩ } := by
  rw [onReplayCommands] at h
  cases hra : replayCommandArgs locals [] with
  | error e2 => simp only [hra] at h; exact absurd h (by simp)
  | ok cmds =>
    simp only [hra] at h
    by_cases hc : cmds = []
    · left
      rw [if_pos hc] at h
      exact (Except.ok.inj h).symm
    · right
      rw [if_neg hc] at h
      exact ⟨cmds, hc, (Except.ok.inj h).symm⟩

/-- Successful handler runs append at most one event, of server or
non-empty client shape. -/
lemma runStopHandler_delta_shape {bps : Nat → Option HandlerKind} {st : Stop}
    {names : List (Nat × String)} {hr : HandlerResult}
    (h : runStopHandler bps st names = .ok hr) :
    hr.delta = [] ∨ (∃ ev, hr.delta = [{ server := some ev }])
      ∨ (∃ cmds, cmds ≠ [] ∧ hr.delta = [{ client := some ⟨cmds⟩ }]) := by
  rw [runStopHandler] at h
  cases hb : st.breakpointId with
  | none => simp only [hb] at h; exact Or.inl (by rw [← (Except.ok.inj h)])
  | some id =>
    simp only [hb] at h
    cases hk : bps id with
    | none => simp only [hk] at h; exact Or.inl (by rw [← (Except.ok.inj h)])
    | some k =>
      simp only [hk] at h
      cases k with
      | noHandler => exact Or.inl (by rw [← (Except.ok.inj h)])
      | processEvent =>
        cases hpe : onProcessEvent st.functionArgs with
        | error e => simp only [hpe, Except.map] at h; exact Except.noConfusion h
        | ok e =>
          simp only [hpe, Except.map] at h
          obtain ⟨ev, hev⟩ := onProcessEvent_ok_shape hpe
          refine Or.inr (Or.inl ⟨ev, ?_⟩)
          rw [← (Except.ok.inj h)]
          simp [hev]
      | replayCommands =>
        cases hrc : onReplayCommands st.localVars with
        | error e => simp only [hrc, Except.map] at h; exact Except.noConfusion h
        | ok oe =>
          simp only [hrc, Except.map] at h
          rcases onReplayCommands_ok_shape hrc with hoe | ⟨cmds, hc, hoe⟩
          · refine Or.inl ?_
            rw [← (Except.ok.inj h)]
            simp [hoe]
          · refine Or.inr (Or.inr ⟨cmds, hc, ?_⟩)
            rw [← (Except.ok.inj h)]
            simp [hoe]
      | coroutineName => exact Or.inl (by rw [← (Except.ok.inj h)])

/-- A successful handler run either leaves the name table unchanged or is
the coroutine-naming handler applied to the stop's arguments. -/
lemma runStopHandler_names_shape {bps : Nat → Option HandlerKind} {st : Stop}
    {names : List (Nat × String)} {hr : HandlerResult}
    (h : runStopHandler bps st names = .ok hr) :
    hr.names = names
    ∨ (∃ id, st.breakpointId = some id ∧ bps id = some .coroutineName
        ∧ hr.names = populateCoroutineName st.functionArgs st.goroutineId names) := by
  rw [runStopHandler] at h
  cases hb : st.breakpointId with
  | none => simp only [hb] at h; exact Or.inl (by rw [← (Except.ok.inj h)])
  | some id =>
    simp only [hb] at h
    cases hk : bps id with
    | none => simp only [hk] at h; exact Or.inl (by rw [← (Except.ok.inj h)])
    | some k =>
      simp only [hk] at h
      cases k with
      | noHandler => exact Or.inl (by rw [← (Except.ok.inj h)])
      | processEvent =>
        cases hpe : onProcessEvent st.functionArgs with
        | error e => simp only [hpe, Except.map] at h; exact Except.noConfusion h
        | ok e =>
          simp only [hpe, Except.map] at h
          exact Or.inl (by rw [← (Except.ok.inj h)])
      | replayCommands =>
        cases hrc : onReplayCommands st.localVars with
        | error e => simp only [hrc, Except.map] at h; exact Except.noConfusion h
        | ok oe =>
          simp only [hrc, Except.map] at h
          exact Or.inl (by rw [← (Except.ok.inj h)])
      | coroutineName =>
        exact Or.inr ⟨id, rfl, hk, by rw [← (Except.ok.inj h)]⟩

/-- Iteration shape at an exited stop. -/
lemma iterate_exited {bps : Nat → Option HandlerKind} {excl : Stop → Bool}
    {st : Stop} (names : List (Nat × String)) (events : List Event)
    (h1 : st.exited = true) :
    iterate bps excl st names events =
      { names := names, events := events, codeLog := [], actions := [], next := none,
        err := if st.exitStatus ≠ 0 then some (.exitStatus st.exitStatus) else none } := by
  rw [iterate, if_pos h1]

/-- Iteration shape when the stop's handler fails. -/
lemma iterate_handler_error {bps : Nat → Option HandlerKind} {excl : Stop → Bool}
    {st : Stop} {names : List (Nat × String)} (events : List Event) {e : String}
    (h1 : st.exited = false) (hh : runStopHandler bps st names = .error e) :
    iterate bps excl st names events =
      { names := names, events := events, codeLog := [], actions := [], next := none,
        err := some (.handlerFailed e) } := by
  rw [iterate, if_neg (by simp [h1])]
  simp only [hh]

/-- Iteration shape at an excluded location: no code event, step out (or
plain step in a runtime.goexit frame). -/
lemma iterate_excluded {bps : Nat → Option HandlerKind} {excl : Stop → Bool}
    {st : Stop} {names : List (Nat × String)} (events : List Event) {hr : HandlerResult}
    (h1 : st.exited = false) (hh : runStopHandler bps st names = .ok hr)
    (he : excl st = true) :
    iterate bps excl st names events =
      { names := hr.names, events := events ++ hr.delta, codeLog := [],
        actions := (if st.nextInProgress then [Action.cancelNext] else [])
          ++ [if startsWith st.funcName "runtime.goexit" then Action.step else Action.stepOut],
        next := some (if startsWith st.funcName "runtime.goexit" then Action.step
          else Action.stepOut),
        err := none } := by
  rw [iterate, if_neg (by simp [h1])]
  simp only [hh, he, if_true]

/-- Iteration shape at a non-excluded stop with a file: record one code
step and single-step. -/
lemma iterate_user {bps : Nat → Option HandlerKind} {excl : Stop → Bool}
    {st : Stop} {names : List (Nat × String)} (events : List Event) {hr : HandlerResult}
    (h1 : st.exited = false) (hh : runStopHandler bps st names = .ok hr)
    (he : excl st = false) (hf : st.file ≠ "") :
    iterate bps excl st names events =
      { names := hr.names,
        events := (events ++ hr.delta) ++ [{ code := some ⟨st.currentPackage, st.file,
          st.line, lookupName hr.names st.goroutineId⟩ }],
        codeLog := [(st.goroutineId, ⟨st.currentPackage, st.file, st.line,
          lookupName hr.names st.goroutineId⟩)],
        actions := (if st.nextInProgress then [Action.cancelNext] else []) ++ [Action.step],
        next := some Action.step, err := none } := by
  rw [iterate, if_neg (by simp [h1])]
  simp only [hh, he, Bool.false_eq_true, if_false]
  simp [hf, he]

/-- Iteration shape at a non-excluded stop without a file: no code event,
single-step. -/
lemma iterate_user_nofile {bps : Nat → Option HandlerKind} {excl : Stop → Bool}
    {st : Stop} {names : List (Nat × String)} (events : List Event) {hr : HandlerResult}
    (h1 : st.exited = false) (hh : runStopHandler bps st names = .ok hr)
    (he : excl st = false) (hf : st.file = "") :
    iterate bps excl st names events =
      { names := hr.names, events := events ++ hr.delta, codeLog := [],
        actions := (if st.nextInProgress then [Action.cancelNext] else []) ++ [Action.step],
        next := some Action.step, err := none } := by
  rw [iterate, if_neg (by simp [h1])]
  simp only [hh, he, Bool.false_eq_true, if_false]
  simp [hf]

/-- Every iteration only appends to the event list. -/
lemma iterate_events_shape (bps : Nat → Option HandlerKind) (excl : Stop → Bool)
    (st : Stop) (names : List (Nat × String)) (events : List Event) :
    ∃ d, (iterate bps excl st names events).events = events ++ d := by
  by_cases h1 : st.exited = true
  · exact ⟨[], by simp [iterate, h1]⟩
  · cases hh : runStopHandler bps st names with
    | error e => exact ⟨[], by simp [iterate, h1, hh]⟩
    | ok hr =>
      by_cases he : excl st = true
      · exact ⟨hr.delta, by simp [iterate, h1, hh, he]⟩
      · have hef : excl st = false := by simpa using he
        by_cases hfile : st.file = ""
        · exact ⟨hr.delta, by simp [iterate, h1, hh, hef, hfile]⟩
        · refine ⟨hr.delta ++ [{ code := some ⟨st.currentPackage, st.file, st.line,
            lookupName hr.names st.goroutineId⟩ }], ?_⟩
          simp [iterate, h1, hh, hef, hfile]

/-- The loop only ever appends to the event list. -/
lemma runLoop_events_pre (bps : Nat → Option HandlerKind) (excl : Stop → Bool)
    (script : List Stop) (st : Stop) (names : List (Nat × String))
    (events : List Event) (codeLog : List (Nat × EventCode)) (acts : List Action) :
    ∃ t, (runLoop bps excl script st names events codeLog acts).events = events ++ t := by
  induction script generalizing st names events codeLog acts with
  | nil =>
    obtain ⟨d, hd⟩ := iterate_events_shape bps excl st names events
    cases hnext : (iterate bps excl st names events).next with
    | none => rw [runLoop_stop [] codeLog acts hnext]; exact ⟨d, hd⟩
    | some c => rw [runLoop_exhausted codeLog acts hnext]; exact ⟨d, hd⟩
  | cons st2 rest ih =>
    obtain ⟨d, hd⟩ := iterate_events_shape bps excl st names events
    cases hnext : (iterate bps excl st names events).next with
    | none => rw [runLoop_stop (st2 :: rest) codeLog acts hnext]; exact ⟨d, hd⟩
    | some c =>
      rw [runLoop_cont codeLog acts hnext]
      obtain ⟨t, ht⟩ := ih st2 (iterate bps excl st names events).names
        (iterate bps excl st names events).events
        (codeLog ++ (iterate bps excl st names events).codeLog)
        (acts ++ (iterate bps excl st names events).actions)
      exact ⟨d ++ t, by rw [ht, hd, List.append_assoc]⟩

/-- The loop only ever appends to the ghost code log. -/
lemma runLoop_codeLog_pre (bps : Nat → Option HandlerKind) (excl : Stop → Bool)
    (script : List Stop) (st : Stop) (names : List (Nat × String))
    (events : List Event) (codeLog : List (Nat × EventCode)) (acts : List Action) :
    ∃ t, (runLoop bps excl script st names events codeLog acts).codeLog = codeLog ++ t := by
  induction script generalizing st names events codeLog acts with
  | nil =>
    cases hnext : (iterate bps excl st names events).next with
    | none => rw [runLoop_stop [] codeLog acts hnext]; exact ⟨_, rfl⟩
    | some c => rw [runLoop_exhausted codeLog acts hnext]; exact ⟨_, rfl⟩
  | cons st2 rest ih =>
    cases hnext : (iterate bps excl st names events).next with
    | none => rw [runLoop_stop (st2 :: rest) codeLog acts hnext]; exact ⟨_, rfl⟩
    | some c =>
      rw [runLoop_cont codeLog acts hnext]
      obtain ⟨t, ht⟩ := ih st2 (iterate bps excl st names events).names
        (iterate bps excl st names events).events
        (codeLog ++ (iterate bps excl st names events).codeLog)
        (acts ++ (iterate bps excl st names events).actions)
      exact ⟨(iterate bps excl st names events).codeLog ++ t, by
        rw [ht, List.append_assoc]⟩

/-! ## Claim C2: excluded locations -/

/-- Claim C2: at every non-exited stop whose location is excluded — file
under the Go runtime/library source root, function in the Temporal SDK
internal namespace (or go.uber.org/atomic or the runtime package), a
caller-supplied ExcludeFuncs/ExcludeFiles pattern match, or the synthetic
harness entry main.main — and whose handler succeeds, the engine emits no
CodeStep and issues step-out (or a plain single step when stopped in the
terminal runtime.goexit frame, out of which stepping is impossible) and
restarts the loop. -/
theorem excluded_location_steps_out (goRootSrc : String)
    (efs efis : List (String → Bool)) (bps : Nat → Option HandlerKind)
    (st : Stop) (names : List (Nat × String)) (events : List Event)
    (hex : st.exited = false)
    (hexcl : excludedLocation goRootSrc efs efis st = true)
    (hok : ∃ hr, runStopHandler bps st names = .ok hr) :
    ((iterate bps (excludedLocation goRootSrc efs efis) st names events).events.drop
        events.length).all (fun e => e.code.isNone) = true
    ∧ (iterate bps (excludedLocation goRootSrc efs efis) st names events).codeLog = []
    ∧ (iterate bps (excludedLocation goRootSrc efs efis) st names events).next
        = some (if startsWith st.funcName "runtime.goexit" then Action.step
            else Action.stepOut)
    ∧ (iterate bps (excludedLocation goRootSrc efs efis) st names events).err = none := by
  obtain ⟨hr, hhr⟩ := hok
  rw [iterate_excluded events hex hhr hexcl]
  refine ⟨?_, rfl, rfl, rfl⟩
  have hd : (events ++ hr.delta).drop events.length = hr.delta := List.drop_left _ _
  simp only [hd]
  rcases runStopHandler_delta_shape hhr with h0 | ⟨ev, h1⟩ | ⟨cmds, hc, h1⟩
  · simp [h0]
  · simp [h1]
  · simp [h1]

/-- Witness for C2: a stop excluded solely by a caller-supplied function
pattern (the spec-modelled part of the classifier) is stepped out of with
no CodeStep. -/
theorem excluded_location_steps_out_witness :
    ((iterate traceBreakpoints
        (excludedLocation "/usr/local/go/src" [fun s => s == "mypkg.Helper"] [])
        { file := "/work/helper.go", line := 4, funcName := "mypkg.Helper", goroutineId := 1 }
        [] []).events.drop ([] : List Event).length).all (fun e => e.code.isNone) = true
    ∧ (iterate traceBreakpoints
        (excludedLocation "/usr/local/go/src" [fun s => s == "mypkg.Helper"] [])
        { file := "/work/helper.go", line := 4, funcName := "mypkg.Helper", goroutineId := 1 }
        [] []).codeLog = []
    ∧ (iterate traceBreakpoints
        (excludedLocation "/usr/local/go/src" [fun s => s == "mypkg.Helper"] [])
        { file := "/work/helper.go", line := 4, funcName := "mypkg.Helper", goroutineId := 1 }
        [] []).next = some (if startsWith "mypkg.Helper" "runtime.goexit" then Action.step
          else Action.stepOut)
    ∧ (iterate traceBreakpoints
        (excludedLocation "/usr/local/go/src" [fun s => s == "mypkg.Helper"] [])
        { file := "/work/helper.go", line := 4, funcName := "mypkg.Helper", goroutineId := 1 }
        [] []).err = none :=
  excluded_location_steps_out "/usr/local/go/src" [fun s => s == "mypkg.Helper"] []
    traceBreakpoints _ [] [] rfl (by decide) ⟨⟨[], []⟩, rfl⟩

/-! ## Claim C8: the Result is append-only in encounter order -/

/-- Counterexample to claim C8 as stated: a run whose only stop hits the
coroutine-naming marker breakpoint. Its handler invocation appends zero
events (it only records the name "root" for goroutine 7), contradicting
the claim that each handler invocation appends exactly one Event. -/
theorem naming_handler_appends_no_event :
    runTrace traceBreakpoints (goStdOrTemporal "/usr/local/go/src")
        [{ breakpointId := some 4
           file := "/go/pkg/mod/go.temporal.io/sdk/internal/internal_workflow.go"
           funcName := "go.temporal.io/sdk/internal.(*coroutineState).call.func1"
           goroutineId := 7
           functionArgs := [.mk "crt" "" [.mk "" "" [.mk "name" "root" []]]] },
         { exited := true }]
      = ⟨[], [(7, "root")], [], [Action.cont, Action.stepOut], none⟩ := by decide

/-- Claim C8 (amended): the Result's event sequence is append-only in
encounter order — the loop never modifies, removes or reorders existing
elements and performs no sorting, grouping or deduplication; every append
puts a single Event at the end: the event-dispatch handler appends
exactly one Event per invocation, every successful handler invocation
appends at most one (the command handler appends none when the extracted
list is empty, the naming handler never appends), and each code-step
observation appends exactly one Event at the end. -/
theorem events_append_only_in_order :
    (∀ (bps : Nat → Option HandlerKind) (excl : Stop → Bool) (script : List Stop)
        (st : Stop) (names : List (Nat × String)) (events : List Event)
        (codeLog : List (Nat × EventCode)) (acts : List Action),
      ∃ t, (runLoop bps excl script st names events codeLog acts).events = events ++ t)
    ∧ (∀ (bps : Nat → Option HandlerKind) (st : Stop) (names : List (Nat × String))
        (hr : HandlerResult), runStopHandler bps st names = .ok hr →
      hr.delta.length ≤ 1)
    ∧ (∀ (bps : Nat → Option HandlerKind) (st : Stop) (names : List (Nat × String))
        (hr : HandlerResult) (id : Nat), st.breakpointId = some id →
      bps id = some .processEvent → runStopHandler bps st names = .ok hr →
      hr.delta.length = 1)
    ∧ (∀ (bps : Nat → Option HandlerKind) (excl : Stop → Bool) (st : Stop)
        (names : List (Nat × String)) (events : List Event) (hr : HandlerResult),
      st.exited = false → runStopHandler bps st names = .ok hr →
      excl st = false → st.file ≠ "" →
      (iterate bps excl st names events).events
        = (events ++ hr.delta) ++ [{ code := some ⟨st.currentPackage, st.file, st.line,
            lookupName hr.names st.goroutineId⟩ }]) := by
  refine ⟨runLoop_events_pre, ?_, ?_, ?_⟩
  · intro bps st names hr h
    rcases runStopHandler_delta_shape h with h0 | ⟨ev, h1⟩ | ⟨cmds, hc, h1⟩
    · simp [h0]
    · simp [h1]
    · simp [h1]
  · intro bps st names hr id hb hk h
    rw [runStopHandler] at h
    simp only [hb, hk] at h
    cases hpe : onProcessEvent st.functionArgs with
    | error e => simp only [hpe, Except.map] at h; exact Except.noConfusion h
    | ok e =>
      simp only [hpe, Except.map] at h
      rw [← (Except.ok.inj h)]
      rfl
  · intro bps excl st names events hr h1 hh he hf
    rw [iterate_user events h1 hh he hf]

/-- Witness for C8 (amended): concrete instances of all four parts. -/
theorem events_append_only_in_order_witness :
    (∃ t, (runLoop traceBreakpoints (fun _ => false) [] { exited := true } []
        [{ server := some { id := 1, type := 1 } }] [] []).events
      = [{ server := some { id := 1, type := 1 } }] ++ t)
    ∧ ({ names := [], delta := [{ server := some { id := 5, type := 1 } }]
        } : HandlerResult).delta.length ≤ 1
    ∧ ({ names := [], delta := [{ server := some { id := 5, type := 1 } }]
        } : HandlerResult).delta.length = 1
    ∧ (iterate traceBreakpoints (fun _ => false)
        { file := "/work/w.go", line := 3, funcName := "mypkg.F", goroutineId := 7,
          currentPackage := "mypkg" } [] []).events
      = (([] ++ []) ++ [{ code := some ⟨"mypkg", "/work/w.go", 3, lookupName [] 7⟩ }]) :=
  ⟨events_append_only_in_order.1 traceBreakpoints (fun _ => false) [] { exited := true }
      [] [{ server := some { id := 1, type := 1 } }] [] [],
   events_append_only_in_order.2.1 traceBreakpoints
      { breakpointId := some 2,
        functionArgs := [.mk "event" "" [.mk "" "" [.mk "EventId" "5" [],
          .mk "EventType" "Started (1)" []]]] } []
      ⟨[], [{ server := some { id := 5, type := 1 } }]⟩ rfl,
   events_append_only_in_order.2.2.1 traceBreakpoints
      { breakpointId := some 2,
        functionArgs := [.mk "event" "" [.mk "" "" [.mk "EventId" "5" [],
          .mk "EventType" "Started (1)" []]]] } []
      ⟨[], [{ server := some { id := 5, type := 1 } }]⟩ 2 rfl rfl rfl,
   events_append_only_in_order.2.2.2 traceBreakpoints (fun _ => false)
      { file := "/work/w.go", line := 3, funcName := "mypkg.F", goroutineId := 7,
        currentPackage := "mypkg" } [] [] ⟨[], []⟩ rfl rfl rfl (by decide)⟩

/-! ## Claim C9: command batches are non-empty -/

/-- Handler-appended events are well-formed command batches. -/
lemma runStopHandler_delta_clientOk {bps : Nat → Option HandlerKind} {st : Stop}
    {names : List (Nat × String)} {hr : HandlerResult}
    (h : runStopHandler bps st names = .ok hr) : hr.delta.all clientOk = true := by
  rcases runStopHandler_delta_shape h with h0 | ⟨ev, h1⟩ | ⟨cmds, hc, h1⟩
  · simp [h0]
  · simp [h1, clientOk]
  · simp [h1, clientOk, List.isEmpty_iff, hc]

/-- Each iteration preserves well-formedness of command batches. -/
lemma iterate_clientOk {bps : Nat → Option HandlerKind} {excl : Stop → Bool}
    {st : Stop} {names : List (Nat × String)} {events : List Event}
    (h : events.all clientOk = true) :
    (iterate bps excl st names events).events.all clientOk = true := by
  by_cases h1 : st.exited = true
  · rw [iterate_exited names events h1]; exact h
  · cases hh : runStopHandler bps st names with
    | error e => rw [iterate_handler_error events (by simpa using h1) hh]; exact h
    | ok hr =>
      have hd := runStopHandler_delta_clientOk hh
      by_cases he : excl st = true
      · rw [iterate_excluded events (by simpa using h1) hh he]
        simp [List.all_append, h, hd]
      · have hef : excl st = false := by simpa using he
        by_cases hf : st.file = ""
        · rw [iterate_user_nofile events (by simpa using h1) hh hef hf]
          simp [List.all_append, h, hd]
        · rw [iterate_user events (by simpa using h1) hh hef hf]
          simp [List.all_append, h, hd, clientOk]

/-- The loop preserves well-formedness of command batches. -/
lemma runLoop_clientOk {bps : Nat → Option HandlerKind} {excl : Stop → Bool}
    (script : List Stop) (st : Stop) (names : List (Nat × String))
    (events : List Event) (codeLog : List (Nat × EventCode)) (acts : List Action)
    (h : events.all clientOk = true) :
    (runLoop bps excl script st names events codeLog acts).events.all clientOk = true := by
  induction script generalizing st names events codeLog acts with
  | nil =>
    cases hnext : (iterate bps excl st names events).next with
    | none => rw [runLoop_stop [] codeLog acts hnext]; exact iterate_clientOk h
    | some c => rw [runLoop_exhausted codeLog acts hnext]; exact iterate_clientOk h
  | cons st2 rest ih =>
    cases hnext : (iterate bps excl st names events).next with
    | none => rw [runLoop_stop _ codeLog acts hnext]; exact iterate_clientOk h
    | some c =>
      rw [runLoop_cont codeLog acts hnext]
      exact ih st2 _ _ _ _ (iterate_clientOk h)

/-- Claim C9: the command-emission handler appends a client CommandBatch
event exactly when the extracted command list is non-empty, and
consequently every client event in any run's Result carries a non-empty
command list. -/
theorem commandBatch_iff_nonempty :
    (∀ (locals : List Variable) (cmds : List Int),
      replayCommandArgs locals [] = .ok cmds →
        (onReplayCommands locals = .ok none ↔ cmds = [])
        ∧ (cmds ≠ [] → onReplayCommands locals = .ok (some { client := some ⟨cmds⟩ })))
    ∧ (∀ (bps : Nat → Option HandlerKind) (excl : Stop → Bool) (script : List Stop),
      ((runTrace bps excl script).events.all clientOk) = true) := by
  constructor
  · intro locals cmds h
    constructor
    · constructor
      · intro hok
        by_contra hne
        rw [onReplayCommands] at hok
        simp only [h, if_neg hne] at hok
        exact Option.noConfusion (Except.ok.inj hok)
      · intro hc
        rw [onReplayCommands]
        simp only [h, if_pos hc]
    · intro hc
      rw [onReplayCommands]
      simp only [h, if_neg hc]
  · intro bps excl script
    cases script with
    | nil => rfl
    | cons st rest => exact runLoop_clientOk rest st [] [] [] [.cont] rfl

/-- Witness for C9: a concrete single-command extraction appends one
batch, and a concrete run's Result has only non-empty batches. -/
theorem commandBatch_iff_nonempty_witness :
    ((onReplayCommands [.mk "eventCommands" "" [.mk "" "" [.mk "" "" [.mk "" "S (3)" []]]]]
        = .ok none ↔ ([3] : List Int) = [])
      ∧ (([3] : List Int) ≠ [] →
        onReplayCommands [.mk "eventCommands" "" [.mk "" "" [.mk "" "" [.mk "" "S (3)" []]]]]
          = .ok (some { client := some ⟨[3]⟩ })))
    ∧ ((runTrace traceBreakpoints (fun _ => false)
        [{ breakpointId := some 3,
           localVars := [.mk "eventCommands" "" [.mk "" "" [.mk "" "" [.mk "" "S (3)" []]]]] },
         { exited := true }]).events.all clientOk) = true :=
  ⟨commandBatch_iff_nonempty.1
      [.mk "eventCommands" "" [.mk "" "" [.mk "" "" [.mk "" "S (3)" []]]]] [3] rfl,
   commandBatch_iff_nonempty.2 traceBreakpoints (fun _ => false)
      [{ breakpointId := some 3,
         localVars := [.mk "eventCommands" "" [.mk "" "" [.mk "" "" [.mk "" "S (3)" []]]]] },
       { exited := true }]⟩

/-! ## Claim C7: coroutine attribution of code steps -/

/-- Name-table lookup after storing the same goroutine's name. -/
lemma lookupName_insert_self (ns : List (Nat × String)) (g : Nat) (v : String) :
    lookupName (insertName ns g v) g = v := by
  simp [lookupName, insertName, List.find?]

/-- Name-table lookup after storing a different goroutine's name. -/
lemma lookupName_insert_other (ns : List (Nat × String)) (g g2 : Nat) (v : String)
    (h : g ≠ g2) : lookupName (insertName ns g v) g2 = lookupName ns g2 := by
  simp only [lookupName, insertName, List.find?]
  have : (g == g2) = false := by simpa using h
  simp [this]

/-- A successful handler run preserves the recorded name of goroutine U
when the stop's naming observation for U is absent or records the same
name. -/
lemma runStopHandler_lookup {bps : Nat → Option HandlerKind} {st : Stop}
    {names : List (Nat × String)} {hr : HandlerResult} {U : Nat} {N : String}
    (h : runStopHandler bps st names = .ok hr)
    (hU : lookupName names U = N)
    (hrec : recordedName bps st U = none ∨ recordedName bps st U = some N) :
    lookupName hr.names U = N := by
  rcases runStopHandler_names_shape h with hn | ⟨id, hb, hk, hn⟩
  · rw [hn]; exact hU
  · rw [hn, populateCoroutineName]
    by_cases hg : st.goroutineId = U
    · have hrn : recordedName bps st U = crtName st.functionArgs := by
        rw [recordedName]
        simp only [hb, hk, if_pos hg]

      rcases hrec with hr0 | hrN
      · rw [hrn] at hr0
        simp only [hr0]
        exact hU
      · rw [hrn] at hrN
        simp only [hrN]
        rw [hg]
        exact lookupName_insert_self names U N
    · cases hc : crtName st.functionArgs with
      | none => simp only [hc]; exact hU
      | some v =>
        simp only [hc]
        rw [lookupName_insert_other names st.goroutineId U v hg]
        exact hU

/-- Each iteration preserves the recorded name of goroutine U under the
same condition. -/
lemma iterate_names_lookup {bps : Nat → Option HandlerKind} {excl : Stop → Bool}
    {st : Stop} {names : List (Nat × String)} {events : List Event} {U : Nat} {N : String}
    (hU : lookupName names U = N)
    (hrec : recordedName bps st U = none ∨ recordedName bps st U = some N) :
    lookupName (iterate bps excl st names events).names U = N := by
  by_cases h1 : st.exited = true
  · rw [iterate_exited names events h1]; exact hU
  · cases hh : runStopHandler bps st names with
    | error e => rw [iterate_handler_error events (by simpa using h1) hh]; exact hU
    | ok hr =>
      have hl := runStopHandler_lookup hh hU hrec
      by_cases he : excl st = true
      · rw [iterate_excluded events (by simpa using h1) hh he]; exact hl
      · have hef : excl st = false := by simpa using he
        by_cases hf : st.file = ""
        · rw [iterate_user_nofile events (by simpa using h1) hh hef hf]; exact hl
        · rw [iterate_user events (by simpa using h1) hh hef hf]; exact hl

/-- Each iteration attributes its appended code step to the recorded
name of its goroutine. -/
lemma iterate_codeLog_attrib {bps : Nat → Option HandlerKind} {excl : Stop → Bool}
    {st : Stop} {names : List (Nat × String)} {events : List Event} {U : Nat} {N : String}
    (hU : lookupName names U = N)
    (hrec : recordedName bps st U = none ∨ recordedName bps st U = some N) :
    (iterate bps excl st names events).codeLog.all
      (fun p => (p.1 != U) || (p.2.coroutine == N)) = true := by
  by_cases h1 : st.exited = true
  · rw [iterate_exited names events h1]; rfl
  · cases hh : runStopHandler bps st names with
    | error e => rw [iterate_handler_error events (by simpa using h1) hh]; rfl
    | ok hr =>
      by_cases he : excl st = true
      · rw [iterate_excluded events (by simpa using h1) hh he]; rfl
      · have hef : excl st = false := by simpa using he
        by_cases hf : st.file = ""
        · rw [iterate_user_nofile events (by simpa using h1) hh hef hf]; rfl
        · rw [iterate_user events (by simpa using h1) hh hef hf]
          have hl := runStopHandler_lookup hh hU hrec
          by_cases hg : st.goroutineId = U
          · simp [hg, hl]
          · simp [hg]

/-- Claim C7: once the name table records name N for goroutine U — and no
later naming observation for U records a different name — every code step
subsequently appended for U carries Coroutine = N, including code steps
at stops reached via any breakpoint path; with N = "" and an empty table
this also says code steps of never-named goroutines carry the empty
name. -/
theorem codeStep_coroutine_attribution (bps : Nat → Option HandlerKind)
    (excl : Stop → Bool) (script : List Stop) (st : Stop)
    (names : List (Nat × String)) (events : List Event)
    (codeLog : List (Nat × EventCode)) (acts : List Action) (U : Nat) (N : String)
    (hU : lookupName names U = N)
    (hrec : ∀ s ∈ st :: script,
      recordedName bps s U = none ∨ recordedName bps s U = some N) :
    (((runLoop bps excl script st names events codeLog acts).codeLog.drop
        codeLog.length).all (fun p => (p.1 != U) || (p.2.coroutine == N))) = true := by
  induction script generalizing st names events codeLog acts with
  | nil =>
    have hrec0 := hrec st (List.mem_cons_self _ _)
    have hatt := @iterate_codeLog_attrib bps excl st names events U N hU hrec0
    cases hnext : (iterate bps excl st names events).next with
    | none =>
      rw [runLoop_stop [] codeLog acts hnext]
      simp only [List.drop_left]
      exact hatt
    | some c =>
      rw [runLoop_exhausted codeLog acts hnext]
      simp only [List.drop_left]
      exact hatt
  | cons st2 rest ih =>
    have hrec0 := hrec st (List.mem_cons_self _ _)
    have hatt := @iterate_codeLog_attrib bps excl st names events U N hU hrec0
    cases hnext : (iterate bps excl st names events).next with
    | none =>
      rw [runLoop_stop _ codeLog acts hnext]
      simp only [List.drop_left]
      exact hatt
    | some c =>
      rw [runLoop_cont codeLog acts hnext]
      have hU2 := @iterate_names_lookup bps excl st names events U N hU hrec0
      have hrec2 : ∀ s ∈ st2 :: rest,
          recordedName bps s U = none ∨ recordedName bps s U = some N :=
        fun s hs => hrec s (List.mem_cons_of_mem _ hs)
      have hih := ih st2 (iterate bps excl st names events).names
        (iterate bps excl st names events).events
        (codeLog ++ (iterate bps excl st names events).codeLog)
        (acts ++ (iterate bps excl st names events).actions) hU2 hrec2
      obtain ⟨t, ht⟩ := runLoop_codeLog_pre bps excl rest st2
        (iterate bps excl st names events).names
        (iterate bps excl st names events).events
        (codeLog ++ (iterate bps excl st names events).codeLog)
        (acts ++ (iterate bps excl st names events).actions)
      rw [ht, List.drop_left] at hih
      rw [ht, List.append_assoc, List.drop_left]
      simp [List.all_append, hatt, hih]

/-- Witness for C7: with goroutine 7 recorded as "root" and no further
naming stop, the code step of a subsequent user-code stop on goroutine 7
is attributed to "root". -/
theorem codeStep_coroutine_attribution_witness :
    (((runLoop traceBreakpoints (goStdOrTemporal "/usr/local/go/src")
        [{ exited := true }]
        { file := "/work/w.go", line := 9, funcName := "mypkg.F", goroutineId := 7,
          currentPackage := "mypkg" }
        [(7, "root")] [] [] [.cont]).codeLog.drop
          ([] : List (Nat × EventCode)).length).all
      (fun p => (p.1 != 7) || (p.2.coroutine == "root"))) = true :=
  codeStep_coroutine_attribution traceBreakpoints (goStdOrTemporal "/usr/local/go/src")
    [{ exited := true }]
    { file := "/work/w.go", line := 9, funcName := "mypkg.F", goroutineId := 7,
      currentPackage := "mypkg" }
    [(7, "root")] [] [] [.cont] 7 "root" rfl (by decide)

/-! ## Claim C4: the source locator -/

/-- With no matching file remaining, the selection loop keeps its
accumulator. -/
lemma findFileLoop_filter_nil (matchs : String → Bool) (l : List String) (acc : String)
    (h : l.filter matchs = []) : findFileLoop matchs l acc = .ok acc := by
  induction l generalizing acc with
  | nil => rfl
  | cons f rest ih =>
    by_cases hf : matchs f = true
    · rw [List.filter_cons_of_pos hf] at h
      exact absurd h (by simp)
    · rw [List.filter_cons_of_neg hf] at h
      rw [findFileLoop, if_neg hf]
      exact ih acc h

/-- Once a (non-empty) file is held and another match remains, the
selection loop fails. -/
lemma findFileLoop_err_of_found (matchs : String → Bool) (l : List String) (acc : String)
    (hacc : acc ≠ "") (h : l.filter matchs ≠ []) :
    ∃ e, findFileLoop matchs l acc = .error e := by
  induction l generalizing acc with
  | nil => simp at h
  | cons f rest ih =>
    by_cases hf : matchs f = true
    · refine ⟨"both " ++ acc ++ " and " ++ f ++ " match", ?_⟩
      rw [findFileLoop, if_pos hf, if_pos hacc]
    · rw [List.filter_cons_of_neg hf] at h
      rw [findFileLoop, if_neg hf]
      exact ih acc hacc h

/-- A unique match is returned by the selection loop. -/
lemma findFileLoop_singleton (matchs : String → Bool) (l : List String) (f : String)
    (h : l.filter matchs = [f]) : findFileLoop matchs l "" = .ok f := by
  induction l with
  | nil => simp at h
  | cons g rest ih =>
    by_cases hg : matchs g = true
    · rw [List.filter_cons_of_pos hg] at h
      have hgf : g = f := (List.cons.inj h).1
      have hrest : rest.filter matchs = [] := (List.cons.inj h).2
      rw [findFileLoop, if_pos hg, if_neg (by simp)]
      rw [hgf]
      exact findFileLoop_filter_nil matchs rest f hrest
    · rw [List.filter_cons_of_neg hg] at h
      rw [findFileLoop, if_neg hg]
      exact ih h

/-- Two or more matches among non-empty paths make the selection loop
fail. -/
lemma findFileLoop_err_two (matchs : String → Bool) (l : List String)
    (hne : ∀ g ∈ l, matchs g = true → g ≠ "")
    (h : 2 ≤ (l.filter matchs).length) :
    ∃ e, findFileLoop matchs l "" = .error e := by
  induction l with
  | nil => simp at h
  | cons g rest ih =>
    by_cases hg : matchs g = true
    · have hgne : g ≠ "" := hne g (List.mem_cons_self _ _) hg
      rw [List.filter_cons_of_pos hg] at h
      have hrest : rest.filter matchs ≠ [] := by
        intro hnil
        rw [hnil] at h
        simp at h
      rw [findFileLoop, if_pos hg, if_neg (by simp)]
      exact findFileLoop_err_of_found matchs rest g hgne hrest
    · rw [List.filter_cons_of_neg hg] at h
      rw [findFileLoop, if_neg hg]
      exact ih (fun x hx => hne x (List.mem_cons_of_mem _ hx)) h

/-- Claim C4: the breakpoint locator fails unless exactly one candidate
file path matches the selector and the fragment occurs exactly once in
that file's line-ending-normalized text; in the unique success case the
breakpoint line is the count of newline characters up to and including
the end of the fragment occurrence, plus one. (Candidate paths are file
paths, hence non-empty when they match — the implementation uses the
empty string as its not-yet-found sentinel.) -/
theorem addFileLineBreakpoint_spec (sources : List String) (matchs : String → Bool)
    (readFile : String → String) (codeToMatch : String)
    (hne : ∀ f ∈ sources, matchs f = true → f ≠ "") :
    ((sources.filter matchs).length ≠ 1 →
      ∃ e, addFileLineBreakpoint sources matchs readFile codeToMatch = .error e)
    ∧ (∀ f, sources.filter matchs = [f] →
      (occList (normCRLF (readFile f).data) codeToMatch.data).length ≠ 1 →
      ∃ e, addFileLineBreakpoint sources matchs readFile codeToMatch = .error e)
    ∧ (∀ f i, sources.filter matchs = [f] →
      occList (normCRLF (readFile f).data) codeToMatch.data = [i] →
      addFileLineBreakpoint sources matchs readFile codeToMatch
        = .ok ⟨f, ((normCRLF (readFile f).data).take
            (i + codeToMatch.data.length)).count '\n' + 1⟩) := by
  refine ⟨?_, ?_, ?_⟩
  · intro hlen
    match hfil : sources.filter matchs with
    | [] =>
      have hloop := findFileLoop_filter_nil matchs sources "" hfil
      refine ⟨"unable to find file matching", ?_⟩
      rw [addFileLineBreakpoint]
      simp only [hloop]
      simp
    | [f] => rw [hfil] at hlen; simp at hlen
    | f :: g :: rest =>
      have h2 : 2 ≤ (sources.filter matchs).length := by
        rw [hfil]; simp [Nat.le_add_left]
      obtain ⟨e, he⟩ := findFileLoop_err_two matchs sources hne h2
      refine ⟨e, ?_⟩
      rw [addFileLineBreakpoint]
      simp only [he]
  · intro f hfil hocc
    have hfne : f ≠ "" := by
      have hfm : f ∈ sources.filter matchs := by rw [hfil]; exact List.mem_cons_self _ _
      have := List.mem_filter.mp hfm
      exact hne f this.1 this.2
    have hloop := findFileLoop_singleton matchs sources f hfil
    match hol : occList (normCRLF (readFile f).data) codeToMatch.data with
    | [] =>
      have hidx : strIndex (normCRLF (readFile f).data) codeToMatch.data = none := by
        rw [strIndex, hol]
        rfl
      refine ⟨"cannot find matching code on " ++ f, ?_⟩
      rw [addFileLineBreakpoint]
      simp only [hloop, if_neg hfne, hidx]
    | [a] => rw [hol] at hocc; simp at hocc
    | a :: b :: rest =>
      have h2 : 2 ≤ (occList (normCRLF (readFile f).data) codeToMatch.data).length := by
        rw [hol]; simp [Nat.le_add_left]
      have hidx : strIndex (normCRLF (readFile f).data) codeToMatch.data = some a := by
        rw [strIndex, hol]
        rfl
      have hdiff := strIndex_ne_strLastIndex h2
      have hlast : strLastIndex (normCRLF (readFile f).data) codeToMatch.data ≠ some a := by
        intro hEq
        exact hdiff (by rw [hidx, hEq])
      refine ⟨"code found twice in " ++ f, ?_⟩
      rw [addFileLineBreakpoint]
      simp only [hloop, if_neg hfne, hidx]
      rw [if_pos hlast]
  · intro f i hfil hocc
    have hfne : f ≠ "" := by
      have hfm : f ∈ sources.filter matchs := by rw [hfil]; exact List.mem_cons_self _ _
      have := List.mem_filter.mp hfm
      exact hne f this.1 this.2
    have hloop := findFileLoop_singleton matchs sources f hfil
    obtain ⟨hidx, hlast⟩ := strIndex_strLastIndex_of_singleton hocc
    rw [addFileLineBreakpoint]
    simp only [hloop, if_neg hfne, hidx]
    rw [if_neg (by rw [hlast]; simp)]

/-- Witness for C4: a two-file, three-line concrete instance where the
second file matches uniquely, the fragment occurs once ending on line 3,
and ambiguous variants fail. -/
theorem addFileLineBreakpoint_spec_witness :
    ((∃ e, addFileLineBreakpoint ["a.go", "b.go"] (fun _ => false)
        (fun _ => "line1\nfrag here\nline3") "frag" = .error e))
    ∧ (∃ e, addFileLineBreakpoint ["a.go", "b.go"] (fun s => s == "b.go")
        (fun _ => "frag frag") "frag" = .error e)
    ∧ addFileLineBreakpoint ["a.go", "b.go"] (fun s => s == "b.go")
        (fun _ => "line1\nline2\r\nfrag here\nline4") "frag"
      = .ok ⟨"b.go", 3⟩ := by
  refine ⟨?_, ?_, ?_⟩
  · exact (addFileLineBreakpoint_spec ["a.go", "b.go"] (fun _ => false)
      (fun _ => "line1\nfrag here\nline3") "frag" (by decide)).1 (by decide)
  · exact (addFileLineBreakpoint_spec ["a.go", "b.go"] (fun s => s == "b.go")
      (fun _ => "frag frag") "frag" (by decide)).2.1 "b.go" (by decide) (by decide)
  · have h := (addFileLineBreakpoint_spec ["a.go", "b.go"] (fun s => s == "b.go")
      (fun _ => "line1\nline2\r\nfrag here\nline4") "frag" (by decide)).2.2 "b.go" 12
      (by decide) (by decide)
    rw [h]
    rfl

/-! ## Claim C10: enum text round-trip -/

/-- Claim C10: for the generated enum tables of the underlying protocol
(whose value table inverts the name table — the protoc generator's
invariant, stated as a hypothesis since the tables are external library
data), UnmarshalText after MarshalText is the identity on every named
EventServerType and EventClientCommandType value; UnmarshalText never
returns an error for any input, and names absent from the value table
map to the zero value. -/
theorem enum_text_round_trip (TS TC : EnumTable)
    (hS : ∀ v s, enumName TS v = some s → enumValueLookup TS s = v)
    (hC : ∀ v s, enumName TC v = some s → enumValueLookup TC s = v) :
    (∀ v s, enumName TS v = some s →
      (eventServerTypeUnmarshalText TS (eventServerTypeMarshalText TS v)).1 = v)
    ∧ (∀ s, (eventServerTypeUnmarshalText TS s).2 = none)
    ∧ (∀ v s, enumName TC v = some s →
      (eventClientCommandTypeUnmarshalText TC (eventClientCommandTypeMarshalText TC v)).1 = v)
    ∧ (∀ s, (eventClientCommandTypeUnmarshalText TC s).2 = none)
    ∧ (∀ s, (∀ p ∈ TS.values, p.1 ≠ s) → (eventServerTypeUnmarshalText TS s).1 = 0) := by
  refine ⟨?_, fun s => rfl, ?_, fun s => rfl, ?_⟩
  · intro v s h
    have hm : eventServerTypeMarshalText TS v = s := by
      rw [eventServerTypeMarshalText, enumString, h]
    rw [hm, eventServerTypeUnmarshalText]
    exact hS v s h
  · intro v s h
    have hm : eventClientCommandTypeMarshalText TC v = s := by
      rw [eventClientCommandTypeMarshalText, enumString, h]
    rw [hm, eventClientCommandTypeUnmarshalText]
    exact hC v s h
  · intro s h
    rw [eventServerTypeUnmarshalText, enumValueLookup]
    have hfind : TS.values.find? (fun p => p.1 == s) = none := by
      rw [List.find?_eq_none]
      intro p hp
      simpa using h p hp
    rw [hfind]
    rfl

/-- The generated tables' inverse property follows from checking each
name-table entry against the value table. -/
lemma enumTable_inverse_of_entries (T : EnumTable)
    (h : ∀ p ∈ T.names, enumValueLookup T p.2 = p.1) :
    ∀ v s, enumName T v = some s → enumValueLookup T s = v := by
  intro v s hn
  rw [enumName] at hn
  cases hf : T.names.find? (fun p => p.1 == v) with
  | none => rw [hf] at hn; exact absurd hn (by simp)
  | some p =>
    rw [hf] at hn
    have hv : p.1 = v := by simpa using List.find?_some hf
    have hs : p.2 = s := by simpa using hn
    have hpv := h p (List.mem_of_find?_eq_some hf)
    rw [hs, hv] at hpv
    exact hpv

/-- Witness for C10: a two-entry fragment of the EventType table and a
one-entry fragment of the CommandType table. -/
theorem enum_text_round_trip_witness :
    ((eventServerTypeUnmarshalText
        ⟨[(0, "Unspecified"), (1, "WorkflowExecutionStarted")],
         [("Unspecified", 0), ("WorkflowExecutionStarted", 1)]⟩
        (eventServerTypeMarshalText
          ⟨[(0, "Unspecified"), (1, "WorkflowExecutionStarted")],
           [("Unspecified", 0), ("WorkflowExecutionStarted", 1)]⟩ 1)).1 = 1)
    ∧ ((eventServerTypeUnmarshalText
        ⟨[(0, "Unspecified"), (1, "WorkflowExecutionStarted")],
         [("Unspecified", 0), ("WorkflowExecutionStarted", 1)]⟩ "garbage").2 = none)
    ∧ ((eventClientCommandTypeUnmarshalText ⟨[(0, "Unspecified")], [("Unspecified", 0)]⟩
        (eventClientCommandTypeMarshalText ⟨[(0, "Unspecified")], [("Unspecified", 0)]⟩
          0)).1 = 0)
    ∧ ((eventServerTypeUnmarshalText
        ⟨[(0, "Unspecified"), (1, "WorkflowExecutionStarted")],
         [("Unspecified", 0), ("WorkflowExecutionStarted", 1)]⟩ "garbage").1 = 0) := by
  have hS := enumTable_inverse_of_entries
    ⟨[(0, "Unspecified"), (1, "WorkflowExecutionStarted")],
     [("Unspecified", 0), ("WorkflowExecutionStarted", 1)]⟩ (by decide)
  have hC := enumTable_inverse_of_entries
    ⟨[(0, "Unspecified")], [("Unspecified", 0)]⟩ (by decide)
  have h := enum_text_round_trip
    ⟨[(0, "Unspecified"), (1, "WorkflowExecutionStarted")],
     [("Unspecified", 0), ("WorkflowExecutionStarted", 1)]⟩
    ⟨[(0, "Unspecified")], [("Unspecified", 0)]⟩ hS hC
  exact ⟨h.1 1 "WorkflowExecutionStarted" rfl, h.2.1 "garbage",
    h.2.2.1 0 "Unspecified" rfl, h.2.2.2.2 "garbage" (by decide)⟩

end TemporalDebugGo
